import Mathlib

/-!
Verification of the event-stream transform module (`transforms.py`): a shallow
embedding of its data model and transforms, and proofs about them.

Event lists (`tmad`) are sequences of integer records `(t, p, x, y)`.  The
binning transforms `ToCountFrame`/`ToEventSum` slice a time-sorted event list
with `bisect_left` searches and accumulate per-bin `(polarity, x, y)` counts
into an `int8` tensor; the geometric transforms filter and re-address event
coordinates; the remaining transforms are small array manipulations.
-/

namespace Torchneuromorphic

/-- An address event record with integer fields, one row of the numpy `tmad`
array: timestamp, polarity, x coordinate, y coordinate. -/
structure Event where
  t : Int
  p : Int
  x : Int
  y : Int
deriving DecidableEq

/-- Python exception outcomes reachable in this module: `IndexError` from
indexing an empty array, `NameError` from evaluating an unbound name. -/
inductive PyError where
  | indexError : PyError
  | nameError : PyError
deriving DecidableEq

/-- The timestamp column `tmad[:, 0]`. -/
def eventTimes (tmad : List Event) : List Int := tmad.map Event.t

/-- The binning transforms assume the event list is sorted ascending in time. -/
def TimeSorted (tmad : List Event) : Prop :=
  tmad.Pairwise (fun a b => a.t ≤ b.t)

instance (tmad : List Event) : Decidable (TimeSorted tmad) := by
  unfold TimeSorted
  infer_instance

/-- Sensor timestamps are nonnegative. -/
def NonNegTimes (tmad : List Event) : Prop := ∀ e ∈ tmad, 0 ≤ e.t

instance (tmad : List Event) : Decidable (NonNegTimes tmad) := by
  unfold NonNegTimes
  exact List.decidableBAll _ tmad

/-- Events whose `(p, x, y)` address is inside the configured
`size = [s0, s1, s2]`; outside it, `np.add.at` would raise IndexError. -/
def AddrsInRange (s0 s1 s2 : Nat) (tmad : List Event) : Prop :=
  ∀ e ∈ tmad, (0 ≤ e.p ∧ e.p < (s0 : Int)) ∧ (0 ≤ e.x ∧ e.x < (s1 : Int)) ∧
    (0 ≤ e.y ∧ e.y < (s2 : Int))

instance (s0 s1 s2 : Nat) (tmad : List Event) :
    Decidable (AddrsInRange s0 s1 s2 tmad) := by
  unfold AddrsInRange
  exact List.decidableBAll _ tmad

/-- `find_first(a, tgt)` is `bisect.bisect_left(a, tgt)`: on a sorted sequence
it returns the leftmost insertion point for `tgt`, i.e. the length of the
maximal prefix of entries strictly below `tgt`. -/
def find_first (a : List Int) (tgt : Int) : Nat :=
  (a.takeWhile (fun s => decide (s < tgt))).length

/-- Cumulative value of `idx_end` in the binning loops after processing bins
`0 .. i-1`: bin `i` advances `idx_end` by a `find_first` over the remaining
suffix of `times` with target `i + off`.  `off = 1` embeds `ToCountFrame`
(search bound `t+1`) and `off = 0` embeds `ToEventSum` (search bound `t`). -/
def cumIdx (off : Nat) (times : List Int) : Nat → Nat
  | 0 => 0
  | i + 1 => cumIdx off times i +
      find_first (times.drop (cumIdx off times i)) ((i : Int) + (off : Int))

/-- Whether an event carries the `(polarity, x, y)` cell address. -/
def addrMatch (e : Event) (p x y : Int) : Bool :=
  decide (e.p = p ∧ e.x = x ∧ e.y = y)

/-- Cell `(i, p, x, y)` of `chunks` after the binning loop: the events of the
slice `addrs[idx_start:idx_end]` for bin `i` that carry this address, as
accumulated by `np.add.at` (the exact count, before int8 storage). -/
def binChunk (off : Nat) (tmad : List Event) (i : Nat) (p x y : Int) : Nat :=
  ((tmad.drop (cumIdx off (eventTimes tmad) i)).take
      (cumIdx off (eventTimes tmad) (i + 1) - cumIdx off (eventTimes tmad) i)).countP
    (fun e => addrMatch e p x y)

/-- Per-bin cell counts of `ToCountFrame.__call__` (upper search bound `t+1`). -/
def tcfChunk (tmad : List Event) (i : Nat) (p x y : Int) : Nat :=
  binChunk 1 tmad i p x y

/-- Per-bin cell counts of `ToEventSum.__call__` (upper search bound `t`). -/
def tesChunk (tmad : List Event) (i : Nat) (p x y : Int) : Nat :=
  binChunk 0 tmad i p x y

/-- The value stored by the signed 8-bit accumulator (`dtype='int8'`) holding
a count of `n` increments: the count wrapped into `[-128, 127]`. -/
def int8val (n : Nat) : Int :=
  ((n : Int) + 128) % 256 - 128

/-- `ToCountFrame.__call__`: indexes `times[0]` and `times[-1]` up front, which
raises IndexError on an empty event list; otherwise returns the `(T, *size)`
int8 tensor of per-bin counts, represented as its cell function (zero outside
the `T` time bins). -/
def ToCountFrame_call (T : Nat) (tmad : List Event) :
    Except PyError (Nat → Int → Int → Int → Int) :=
  if tmad = [] then Except.error PyError.indexError
  else Except.ok (fun i p x y => if i < T then int8val (tcfChunk tmad i p x y) else 0)

/-- `ToEventSum` output cell `(p, x, y)`: the int8 per-bin tensor summed over
the time axis (`sum` upcasts to a wide integer; `keepdims=True` keeps a
length-1 time dimension, elided in this representation). -/
def tesOut (T : Nat) (tmad : List Event) (p x y : Int) : Int :=
  ∑ i ∈ Finset.range T, int8val (tesChunk tmad i p x y)

/-- `ToEventSum.__call__`: the same IndexError on empty input; otherwise the
summed image. -/
def ToEventSum_call (T : Nat) (tmad : List Event) :
    Except PyError (Int → Int → Int → Int) :=
  if tmad = [] then Except.error PyError.indexError
  else Except.ok (fun p x y => tesOut T tmad p x y)

/-- `ToCountFrame` output summed over the time axis (time dimension kept),
the right-hand side of the `ToEventSum` comparison. -/
def tcfTimeSum (T : Nat) (tmad : List Event) (p x y : Int) : Int :=
  ∑ i ∈ Finset.range T, int8val (tcfChunk tmad i p x y)

/-- `ToCountFrame` output summed over all `T` time bins and all `(p, x, y)`
cells of the configured `size = [s0, s1, s2]`. -/
def tcfTotal (T s0 s1 s2 : Nat) (tmad : List Event) : Int :=
  ∑ i ∈ Finset.range T, ∑ p ∈ Finset.range s0, ∑ x ∈ Finset.range s1,
    ∑ y ∈ Finset.range s2, int8val (tcfChunk tmad i (p : Int) (x : Int) (y : Int))

/-- Every `(bin, cell)` accumulator of `ToCountFrame` stays within int8's
nonnegative range, so no stored count has wrapped. -/
def SmallCounts (T s0 s1 s2 : Nat) (tmad : List Event) : Prop :=
  ∀ i ∈ Finset.range T, ∀ p ∈ Finset.range s0, ∀ x ∈ Finset.range s1,
    ∀ y ∈ Finset.range s2, tcfChunk tmad i (p : Int) (x : Int) (y : Int) ≤ 127

instance (T s0 s1 s2 : Nat) (tmad : List Event) :
    Decidable (SmallCounts T s0 s1 s2 tmad) := by
  unfold SmallCounts
  infer_instance

/-- `Jitter.__call__`: with all jitter magnitudes zero the input is returned
unchanged (the explicit fast path).  The nonzero branch draws random offsets
and an angle and rebuilds the frame through floating-point rotation; being
random and float-valued it is outside the embedding and is represented by an
arbitrary frame function `jitterBranch`. -/
def Jitter_call {Frame : Type} (xs ys th : Int) (jitterBranch : Frame → Frame)
    (data : Frame) : Frame :=
  if xs = 0 ∧ ys = 0 ∧ th = 0 then data else jitterBranch data

/-- One row of `scatter_(1, index, 1)`: every position listed in `idxRow` is
set to 1 in `row`. -/
def scatterRow (row : List Nat) (idxRow : List Nat) : List Nat :=
  idxRow.foldl (fun r j => r.set j 1) row

/-- `toOneHot.__call__`: a zeroed `(n, num_classes)` matrix scattered along
dim 1 with the label index tensor.  Labels are supplied as an `(n, 1)` integer
array, the shape `scatter_` accepts along dim 1 (the index tensor must have
the same number of dimensions as the destination). -/
def toOneHot_call (numClasses : Nat) (integers : List (List Nat)) : List (List Nat) :=
  integers.map (fun idxRow => scatterRow (List.replicate numClasses 0) idxRow)

/-- `Crop.__call__`: its body compares against the unbound global name
`high_crop` (instead of `self.high` / `self.low`), so evaluating the first
comparison raises NameError on every invocation, before any cropping occurs. -/
def Crop_call (_low _high : List Int) (_tmad : List Event) :
    Except PyError (List Event) :=
  Except.error PyError.nameError

/-- Column access `row[d]` for an event row stored as a list of integers. -/
def getCol (r : List Int) (d : Nat) : Int := r.getD d 0

/-- Column update `row[d] = v`. -/
def setCol (r : List Int) (d : Nat) (v : Int) : List Int := r.set d v

/-- One iteration of the `CropDims.__call__` loop: delete the rows with
`row[d] >= hi`, then the rows with `row[d] < lo`, then rebase the surviving
column `d` by subtracting `lo`. -/
def cropDimsStep (tmad : List (List Int)) (lo hi : Int) (d : Nat) : List (List Int) :=
  ((tmad.filter (fun r => decide (getCol r d < hi))).filter
      (fun r => decide (lo ≤ getCol r d))).map
    (fun r => setCol r d (getCol r d - lo))

/-- The `for i, d in enumerate(self.dims)` loop of `CropDims.__call__`,
processing `(d, (lo, hi))` triples in order. -/
def cropDimsLoop (tmad : List (List Int)) : List (Nat × Int × Int) → List (List Int)
  | [] => tmad
  | s :: rest => cropDimsLoop (cropDimsStep tmad s.2.1 s.2.2 s.1) rest

/-- `CropDims.__call__`: each configured dimension `dims[i]` is filtered to
`[low_crop[i], high_crop[i])` and rebased to start at zero. -/
def CropDims_call (lowCrop highCrop : List Int) (dims : List Nat)
    (tmad : List (List Int)) : List (List Int) :=
  cropDimsLoop tmad (dims.zip (lowCrop.zip highCrop))

/-- State of `CropDims.__call__` with numpy aliasing made explicit: `caller`
is the argument array as the caller sees it, `view` is the array the local
name `tmad` currently denotes, and `aliased` records whether that local still
denotes the caller's buffer. -/
structure CropDimsState where
  caller : List (List Int)
  view : List (List Int)
  aliased : Bool
deriving DecidableEq

/-- One iteration of `CropDims.__call__` on the aliasing-explicit state, in
statement order: the two `np.delete` calls rebind the local to a fresh
filtered copy, dropping any aliasing of the caller's buffer; the subsequent
in-place column assignment `tmad[:,d] = tmad[:,d] - lo` then writes through
the local, reaching the caller's buffer only if the local still aliased it at
that point. -/
def cropDimsStepSt (st : CropDimsState) (lo hi : Int) (d : Nat) : CropDimsState :=
  let afterDelete : CropDimsState :=
    { caller := st.caller
      view := (st.view.filter (fun r => decide (getCol r d < hi))).filter
          (fun r => decide (lo ≤ getCol r d))
      aliased := false }
  let written := afterDelete.view.map (fun r => setCol r d (getCol r d - lo))
  { caller := if afterDelete.aliased then written else afterDelete.caller
    view := written
    aliased := afterDelete.aliased }

/-- The `CropDims.__call__` loop on the aliasing-explicit state. -/
def cropDimsLoopSt (st : CropDimsState) : List (Nat × Int × Int) → CropDimsState
  | [] => st
  | s :: rest => cropDimsLoopSt (cropDimsStepSt st s.2.1 s.2.2 s.1) rest

/-- `CropDims.__call__` on the aliasing-explicit state: the local name starts
out aliasing the caller's array. -/
def CropDims_callSt (lowCrop highCrop : List Int) (dims : List Nat)
    (tmad : List (List Int)) : CropDimsState :=
  cropDimsLoopSt { caller := tmad, view := tmad, aliased := true }
    (dims.zip (lowCrop.zip highCrop))

/-- Unsigned 32-bit wrap of an integer, as `astype(np.uint32)` produces. -/
def u32 (n : Int) : Nat := (n % 4294967296).toNat

/-- `CropCenter.__init__`: `translation = (center - size[1:] // 2)` computed
in `np.uint32` arithmetic. -/
def CropCenter_translation (center attShape : Nat × Nat) : Nat × Nat :=
  (u32 ((center.1 : Int) - ((attShape.1 / 2 : Nat) : Int)),
    u32 ((center.2 : Int) - ((attShape.2 / 2 : Nat) : Int)))

/-- `CropCenter.__call__` with numpy aliasing made explicit: the statement
`tmad[:, 2:] -= trans` subtracts the translation from the caller's array in
place, after which the two `np.delete` calls build fresh filtered copies.
The first component is the post-call state of the argument array; the second
is the returned event list. -/
def CropCenter_call (center attShape : Nat × Nat) (tmad : List Event) :
    List Event × List Event :=
  let trans := CropCenter_translation center attShape
  let shifted := tmad.map (fun e =>
    { e with x := e.x - (trans.1 : Int), y := e.y - (trans.2 : Int) })
  let kept := (shifted.filter (fun e =>
      decide (¬ ((attShape.1 : Int) ≤ e.x ∨ (attShape.2 : Int) ≤ e.y)))).filter
    (fun e => decide (¬ (e.x < 0 ∨ e.y < 0)))
  (shifted, kept)

/-- Configuration built by `FilterEvents.__init__`: the shape data of the
grouped 3-D convolution.  The kernel entries themselves are floating point
(a normalized, time-reversed exponential) and are not modelled; the claims
about this transform concern only its shape and group structure. -/
structure FilterEventsCfg where
  kernelOutChannels : Nat
  kernelLength : Nat
  groups : Nat
  tpad : Nat
deriving DecidableEq

/-- `ExpFilterEvents.__init__`: builds a kernel tensor of shape
`(channels, 1, length, 1, 1)` holding the per-channel exponential kernel, then
passes `groups = 2` — a hardcoded constant, not `channels` — and the default
`tpad = kernel.shape[2] // 2 = length // 2` to `FilterEvents.__init__`. -/
def ExpFilterEvents_init (length channels : Nat) : FilterEventsCfg :=
  { kernelOutChannels := channels
    kernelLength := length
    groups := 2
    tpad := length / 2 }

lemma length_takeWhile_lt_eq_countP (l : List Int) (c : Int)
    (hs : l.Pairwise (fun a b : Int => a ≤ b)) :
    (l.takeWhile (fun s => decide (s < c))).length
      = l.countP (fun s => decide (s < c)) := by
  induction l with
  | nil => rfl
  | cons a l ih =>
    rcases List.pairwise_cons.mp hs with ⟨ha, hl⟩
    by_cases h : a < c
    · simp [List.takeWhile_cons, List.countP_cons, h, ih hl]
    · have hz : l.countP (fun s => decide (s < c)) = 0 :=
        List.countP_eq_zero.mpr (fun s hsl => by
          simp only [decide_eq_true_eq, not_lt]
          exact le_trans (not_lt.mp h) (ha s hsl))
      simp [List.takeWhile_cons, List.countP_cons, h, hz]

lemma find_first_eq_countP (l : List Int) (c : Int)
    (hs : l.Pairwise (fun a b : Int => a ≤ b)) :
    find_first l c = l.countP (fun s => decide (s < c)) :=
  length_takeWhile_lt_eq_countP l c hs

lemma cumIdx_eq_countP (off : Nat) (hoff : off ≤ 1) (times : List Int)
    (hs : times.Pairwise (fun a b : Int => a ≤ b))
    (hnn : ∀ s ∈ times, 0 ≤ s) (i : Nat) :
    cumIdx off times i
      = times.countP (fun s => decide (s < (i : Int) + (off : Int) - 1)) := by
  induction i with
  | zero =>
    rw [cumIdx]
    refine (List.countP_eq_zero.mpr fun s hsl hlt => ?_).symm
    have h0 : (0 : Int) ≤ s := hnn s hsl
    have hlt2 : s < (0 : Int) + (off : Int) - 1 := by simpa using hlt
    have : (off : Int) ≤ 1 := by exact_mod_cast hoff
    omega
  | succ i ih =>
    have hdrop : (times.drop (cumIdx off times i)).Pairwise (fun a b : Int => a ≤ b) :=
      List.Pairwise.sublist (List.drop_sublist _ _) hs
    rw [ih] at hdrop
    rw [cumIdx, ih, find_first_eq_countP _ _ hdrop]
    have hk : times.countP (fun s => decide (s < (i : Int) + (off : Int) - 1))
        = (times.takeWhile (fun s => decide (s < (i : Int) + (off : Int) - 1))).length :=
      (length_takeWhile_lt_eq_countP times _ hs).symm
    have htake : times.take (times.countP
          (fun s => decide (s < (i : Int) + (off : Int) - 1)))
        = times.takeWhile (fun s => decide (s < (i : Int) + (off : Int) - 1)) := by
      rw [hk]
      exact (List.prefix_iff_eq_take.mp (List.takeWhile_prefix _)).symm
    have hsplit : times.countP (fun s => decide (s < (i : Int) + (off : Int)))
        = (times.take (times.countP
              (fun s => decide (s < (i : Int) + (off : Int) - 1)))).countP
            (fun s => decide (s < (i : Int) + (off : Int)))
          + (times.drop (times.countP
              (fun s => decide (s < (i : Int) + (off : Int) - 1)))).countP
            (fun s => decide (s < (i : Int) + (off : Int))) := by
      rw [← List.countP_append, List.take_append_drop]
    have hfull : (times.take (times.countP
          (fun s => decide (s < (i : Int) + (off : Int) - 1)))).countP
            (fun s => decide (s < (i : Int) + (off : Int)))
        = times.countP (fun s => decide (s < (i : Int) + (off : Int) - 1)) := by
      rw [htake]
      rw [List.countP_eq_length.mpr, ← hk]
      intro a hma
      have := List.mem_takeWhile_imp hma
      have h1 : a < (i : Int) + (off : Int) - 1 := by simpa using this
      simp only [decide_eq_true_eq]
      omega
    have hgoal : times.countP (fun s => decide (s < (i : Int) + (off : Int) - 1))
          + (times.drop (times.countP
              (fun s => decide (s < (i : Int) + (off : Int) - 1)))).countP
            (fun s => decide (s < (i : Int) + (off : Int)))
        = times.countP (fun s => decide (s < (i : Int) + (off : Int))) := by
      rw [hsplit, hfull]
    have hpred : times.countP (fun s => decide (s < (i : Int) + (off : Int)))
        = times.countP (fun s => decide (s < ((i : Nat) + 1 : Nat) + (off : Int) - 1)) := by
      refine List.countP_congr fun a _ => ?_
      simp only [decide_eq_true_eq]
      constructor <;> intro h <;> [push_cast; push_cast at h] <;> omega
    rw [← hpred, ← hgoal]

/-- On a time-sorted event list, the slice between the cumulative counts of
two nested time bounds consists exactly of the events with timestamp in
`[c₁, c₂)`; counting matching events in that slice counts them in the whole
list. -/
lemma slice_countP (q : Event → Bool) (c₁ c₂ : Int) (hc : c₁ ≤ c₂)
    (l : List Event) (hp : l.Pairwise (fun a b => a.t ≤ b.t)) :
    ((l.drop (l.countP (fun e => decide (e.t < c₁)))).take
        (l.countP (fun e => decide (e.t < c₂))
          - l.countP (fun e => decide (e.t < c₁)))).countP q
      = l.countP (fun e => decide (c₁ ≤ e.t ∧ e.t < c₂) && q e) := by
  induction l with
  | nil => rfl
  | cons a l ih =>
    rcases List.pairwise_cons.mp hp with ⟨ha, hl⟩
    by_cases h₁ : a.t < c₁
    · have h₂ : a.t < c₂ := lt_of_lt_of_le h₁ hc
      have hle : ¬ (c₁ ≤ a.t) := not_le.mpr h₁
      simpa [List.countP_cons, h₁, h₂, hle, Nat.add_sub_add_right] using ih hl
    · have hz₁ : l.countP (fun e => decide (e.t < c₁)) = 0 :=
        List.countP_eq_zero.mpr fun b hb => by
          simp only [decide_eq_true_eq, not_lt]
          exact le_trans (not_lt.mp h₁) (ha b hb)
      by_cases h₂ : a.t < c₂
      · have hle : c₁ ≤ a.t := not_lt.mp h₁
        have hih := ih hl
        rw [hz₁, List.drop_zero, Nat.sub_zero] at hih
        simpa [List.countP_cons, h₁, h₂, hle, hz₁, List.take_succ_cons] using hih
      · have hz₂ : l.countP (fun e => decide (e.t < c₂)) = 0 :=
          List.countP_eq_zero.mpr fun b hb => by
            simp only [decide_eq_true_eq, not_lt]
            exact le_trans (not_lt.mp h₂) (ha b hb)
        have hzr : (0 : Nat)
            = l.countP (fun e => decide (c₁ ≤ e.t ∧ e.t < c₂) && q e) :=
          (List.countP_eq_zero.mpr fun b hb hcon => by
            have hb2 : b.t < c₂ := by
              simp only [Bool.and_eq_true, decide_eq_true_eq] at hcon
              tauto
            exact absurd hb2 (not_lt.mpr (le_trans (not_lt.mp h₂) (ha b hb)))).symm
        simpa [List.countP_cons, h₁, h₂, hz₁, hz₂] using hzr

lemma eventTimes_sorted {tmad : List Event} (hs : TimeSorted tmad) :
    (eventTimes tmad).Pairwise (fun a b : Int => a ≤ b) :=
  List.pairwise_map.mpr hs

lemma eventTimes_countP (tmad : List Event) (c : Int) :
    (eventTimes tmad).countP (fun s => decide (s < c))
      = tmad.countP (fun e => decide (e.t < c)) := by
  unfold eventTimes
  rw [List.countP_map]
  rfl

/-- The cumulative slice index of the binning loop, in terms of the event
list: after bins `0 .. i-1`, exactly the events with timestamp below
`i + off - 1` have been consumed. -/
lemma cumIdx_eq_countP_events (off : Nat) (hoff : off ≤ 1) (tmad : List Event)
    (hs : TimeSorted tmad) (hnn : NonNegTimes tmad) (i : Nat) :
    cumIdx off (eventTimes tmad) i
      = tmad.countP (fun e => decide (e.t < (i : Int) + (off : Int) - 1)) := by
  rw [cumIdx_eq_countP off hoff (eventTimes tmad) (eventTimes_sorted hs)
    (fun s hsl => by
      rcases List.mem_map.mp hsl with ⟨e, he, rfl⟩
      exact hnn e he)]
  exact eventTimes_countP tmad _

/-- Bin `i` of the binning loop holds exactly the events with timestamp equal
to `i + off - 1`, restricted to the queried cell address. -/
lemma binChunk_eq_countP (off : Nat) (hoff : off ≤ 1) (tmad : List Event)
    (hs : TimeSorted tmad) (hnn : NonNegTimes tmad) (i : Nat) (p x y : Int) :
    binChunk off tmad i p x y
      = tmad.countP (fun e =>
          decide (e.t = (i : Int) + (off : Int) - 1) && addrMatch e p x y) := by
  unfold binChunk
  rw [cumIdx_eq_countP_events off hoff tmad hs hnn i,
    cumIdx_eq_countP_events off hoff tmad hs hnn (i + 1)]
  have hpred : tmad.countP (fun e => decide (e.t < ((i : Nat) + 1 : Nat) + (off : Int) - 1))
      = tmad.countP (fun e => decide (e.t < (i : Int) + (off : Int))) := by
    refine List.countP_congr fun e _ => ?_
    simp only [decide_eq_true_eq]
    constructor <;> intro h <;> [push_cast at h; push_cast] <;> omega
  rw [hpred, slice_countP _ ((i : Int) + (off : Int) - 1) ((i : Int) + (off : Int))
    (by omega) tmad hs]
  refine List.countP_congr fun e _ => ?_
  simp only [Bool.and_eq_true, decide_eq_true_eq]
  constructor <;> intro h <;> exact ⟨by omega, h.2⟩

/-- Bin `i` of `ToCountFrame` counts exactly the events with timestamp `i`. -/
lemma tcfChunk_eq_countP (tmad : List Event) (hs : TimeSorted tmad)
    (hnn : NonNegTimes tmad) (i : Nat) (p x y : Int) :
    tcfChunk tmad i p x y
      = tmad.countP (fun e => decide (e.t = (i : Int)) && addrMatch e p x y) := by
  unfold tcfChunk
  rw [binChunk_eq_countP 1 (by omega) tmad hs hnn i p x y]
  refine List.countP_congr fun e _ => ?_
  simp only [Bool.and_eq_true, decide_eq_true_eq]
  constructor <;> intro h <;> exact ⟨by omega, h.2⟩

/-- Bin `i` of `ToEventSum` counts exactly the events with timestamp `i - 1`:
one bin later than `ToCountFrame` places them. -/
lemma tesChunk_eq_countP (tmad : List Event) (hs : TimeSorted tmad)
    (hnn : NonNegTimes tmad) (i : Nat) (p x y : Int) :
    tesChunk tmad i p x y
      = tmad.countP (fun e => decide (e.t = (i : Int) - 1) && addrMatch e p x y) := by
  unfold tesChunk
  rw [binChunk_eq_countP 0 (by omega) tmad hs hnn i p x y]
  refine List.countP_congr fun e _ => ?_
  simp only [Bool.and_eq_true, decide_eq_true_eq]
  constructor <;> intro h <;> exact ⟨by omega, h.2⟩

/-- Bin 0 of `ToEventSum` is always empty on nonnegative timestamps. -/
lemma tesChunk_zero (tmad : List Event) (hs : TimeSorted tmad)
    (hnn : NonNegTimes tmad) (p x y : Int) : tesChunk tmad 0 p x y = 0 := by
  rw [tesChunk_eq_countP tmad hs hnn 0 p x y]
  refine List.countP_eq_zero.mpr fun e he hcon => ?_
  have h0 := hnn e he
  simp only [Bool.and_eq_true, decide_eq_true_eq] at hcon
  omega

lemma cumIdx_le_succ (off : Nat) (times : List Int) (i : Nat) :
    cumIdx off times i ≤ cumIdx off times (i + 1) := by
  rw [cumIdx]
  exact Nat.le_add_right _ _

lemma cumIdx_mono (off : Nat) (times : List Int) :
    Monotone (cumIdx off times) :=
  monotone_nat_of_le_succ (cumIdx_le_succ off times)

lemma int8val_of_le {n : Nat} (h : n ≤ 127) : int8val n = (n : Int) := by
  unfold int8val
  have h1 : (n : Int) ≤ 127 := by exact_mod_cast h
  have h2 : (0 : Int) ≤ (n : Int) := Int.ofNat_nonneg n
  rw [Int.emod_eq_of_lt (by omega) (by omega)]
  omega

lemma sum_range_ite_eq (v : Int) (n : Nat) :
    (∑ k ∈ Finset.range n, if v = (k : Int) then (1 : Nat) else 0)
      = if 0 ≤ v ∧ v < (n : Int) then 1 else 0 := by
  induction n with
  | zero =>
    rw [Finset.range_zero, Finset.sum_empty]
    have : ¬ (0 ≤ v ∧ v < ((0 : Nat) : Int)) := by
      push_cast
      omega
    rw [if_neg this]
  | succ n ih =>
    rw [Finset.sum_range_succ, ih]
    have hcast : ((n + 1 : Nat) : Int) = (n : Int) + 1 := by push_cast; ring
    rw [hcast]
    by_cases h : v = (n : Int)
    · rw [if_neg (by omega), if_pos h, if_pos (by omega)]
    · rw [if_neg h, add_zero]
      by_cases h2 : 0 ≤ v ∧ v < (n : Int)
      · rw [if_pos h2, if_pos (by omega)]
      · rw [if_neg h2, if_neg (by omega)]

/-- Summing the cell indicator of a single in-range event over all cells of
the configured size yields exactly 1. -/
lemma sum_addrMatch_one (a : Event) (s0 s1 s2 : Nat)
    (hp : 0 ≤ a.p ∧ a.p < (s0 : Int)) (hx : 0 ≤ a.x ∧ a.x < (s1 : Int))
    (hy : 0 ≤ a.y ∧ a.y < (s2 : Int)) :
    (∑ p ∈ Finset.range s0, ∑ x ∈ Finset.range s1, ∑ y ∈ Finset.range s2,
        if addrMatch a (p : Int) (x : Int) (y : Int) = true then (1 : Nat) else 0)
      = 1 := by
  simp only [addrMatch, decide_eq_true_eq]
  have h1 : ∀ p x y : Int,
      (if (a.p = p ∧ a.x = x ∧ a.y = y) then (1 : Nat) else 0)
        = (if a.p = p then (1 : Nat) else 0)
          * ((if a.x = x then (1 : Nat) else 0) * (if a.y = y then (1 : Nat) else 0)) := by
    intro p x y
    by_cases hp1 : a.p = p <;> by_cases hx1 : a.x = x <;> by_cases hy1 : a.y = y <;>
      simp [hp1, hx1, hy1]
  simp only [h1, ← Finset.mul_sum, ← Finset.sum_mul]
  rw [sum_range_ite_eq, sum_range_ite_eq, sum_range_ite_eq,
    if_pos hp, if_pos hx, if_pos hy]
  norm_num

/-- Summing the per-cell counts of the events at one timestamp over all cells
recovers the count of events at that timestamp, when addresses are in range. -/
lemma sum_cells_countP (s0 s1 s2 : Nat) (c : Int) (l : List Event)
    (haddr : AddrsInRange s0 s1 s2 l) :
    (∑ p ∈ Finset.range s0, ∑ x ∈ Finset.range s1, ∑ y ∈ Finset.range s2,
        l.countP (fun e => decide (e.t = c) && addrMatch e (p : Int) (x : Int) (y : Int)))
      = l.countP (fun e => decide (e.t = c)) := by
  induction l with
  | nil => simp
  | cons a l ih =>
    have haTail : AddrsInRange s0 s1 s2 l := fun e he => haddr e (List.mem_cons_of_mem a he)
    have haHead := haddr a (List.mem_cons_self a l)
    simp only [List.countP_cons, Finset.sum_add_distrib]
    rw [ih haTail]
    by_cases htc : a.t = c
    · have hd : (decide (a.t = c)) = true := by simp [htc]
      simp only [hd, Bool.true_and]
      rw [sum_addrMatch_one a s0 s1 s2 haHead.1 haHead.2.1 haHead.2.2]
      simp
    · have hd : (decide (a.t = c)) = false := by simp [htc]
      simp [hd]

/-- Summing the per-timestamp counts over all `T` bins counts the events with
timestamp in `[0, T)`. -/
lemma sum_bins_countP (T : Nat) (l : List Event) :
    (∑ i ∈ Finset.range T, l.countP (fun e => decide (e.t = (i : Int))))
      = l.countP (fun e => decide (0 ≤ e.t ∧ e.t < (T : Int))) := by
  induction l with
  | nil => simp
  | cons a l ih =>
    simp only [List.countP_cons, Finset.sum_add_distrib, ih]
    congr 1
    simp only [decide_eq_true_eq]
    exact sum_range_ite_eq a.t T

/-- Claim C1 (amended): on a non-empty, time-sorted event list with in-range
addresses and nonnegative timestamps, provided no `(bin, cell)` accumulator
exceeds 127 (the int8 accumulator wraps past that), the `ToCountFrame` output
summed over all `T` bins and all cells equals the number of events with
timestamp in `[0, T)`; and the bin slices are pairwise disjoint, so no event
contributes to more than one bin. -/
theorem tcfTotal_eq_count (T s0 s1 s2 : Nat) (tmad : List Event)
    (hne : tmad ≠ []) (hs : TimeSorted tmad) (hnn : NonNegTimes tmad)
    (haddr : AddrsInRange s0 s1 s2 tmad) (hsm : SmallCounts T s0 s1 s2 tmad) :
    tcfTotal T s0 s1 s2 tmad
        = ((tmad.countP (fun e => decide (0 ≤ e.t ∧ e.t < (T : Int)))) : Int) ∧
      ∀ j : Nat, ((Finset.range T).filter (fun i =>
          cumIdx 1 (eventTimes tmad) i ≤ j ∧
            j < cumIdx 1 (eventTimes tmad) (i + 1))).card ≤ 1 := by
  constructor
  · have hcast : tcfTotal T s0 s1 s2 tmad
        = ((∑ i ∈ Finset.range T, ∑ p ∈ Finset.range s0, ∑ x ∈ Finset.range s1,
            ∑ y ∈ Finset.range s2,
              tcfChunk tmad i (p : Int) (x : Int) (y : Int)) : Int) := by
      unfold tcfTotal
      refine Finset.sum_congr rfl fun i hi => ?_
      refine Finset.sum_congr rfl fun p hp => ?_
      refine Finset.sum_congr rfl fun x hx => ?_
      refine Finset.sum_congr rfl fun y hy => ?_
      exact int8val_of_le (hsm i hi p hp x hx y hy)
    have hNat : (∑ i ∈ Finset.range T, ∑ p ∈ Finset.range s0, ∑ x ∈ Finset.range s1,
        ∑ y ∈ Finset.range s2, tcfChunk tmad i (p : Int) (x : Int) (y : Int))
        = tmad.countP (fun e => decide (0 ≤ e.t ∧ e.t < (T : Int))) := by
      calc (∑ i ∈ Finset.range T, ∑ p ∈ Finset.range s0, ∑ x ∈ Finset.range s1,
              ∑ y ∈ Finset.range s2, tcfChunk tmad i (p : Int) (x : Int) (y : Int))
          = ∑ i ∈ Finset.range T, tmad.countP (fun e => decide (e.t = (i : Int))) := by
            refine Finset.sum_congr rfl fun i _ => ?_
            simp only [tcfChunk_eq_countP tmad hs hnn]
            exact sum_cells_countP s0 s1 s2 (i : Int) tmad haddr
        _ = tmad.countP (fun e => decide (0 ≤ e.t ∧ e.t < (T : Int))) :=
            sum_bins_countP T tmad
    rw [hcast]
    exact_mod_cast hNat
  · intro j
    rw [Finset.card_le_one]
    intro i₁ hi₁ i₂ hi₂
    simp only [Finset.mem_filter, Finset.mem_range] at hi₁ hi₂
    by_contra hne2
    rcases Nat.lt_or_ge i₁ i₂ with hlt | hge
    · have h2 := cumIdx_mono 1 (eventTimes tmad) (show i₁ + 1 ≤ i₂ from hlt)
      omega
    · have hlt : i₂ < i₁ := by omega
      have h2 := cumIdx_mono 1 (eventTimes tmad) (show i₂ + 1 ≤ i₁ from hlt)
      omega

set_option maxHeartbeats 3200000 in
set_option maxRecDepth 16000 in
/-- Claim C1 as stated fails on the code: 128 identical events at timestamp 0
overflow the int8 accumulator of their shared cell, so the output sums to
-128 while 128 input events fall within `[0, T)`. -/
theorem tcfTotal_overflow_counterexample :
    TimeSorted (List.replicate 128 ⟨0, 0, 0, 0⟩) ∧
    List.replicate 128 (⟨0, 0, 0, 0⟩ : Event) ≠ [] ∧
    NonNegTimes (List.replicate 128 ⟨0, 0, 0, 0⟩) ∧
    AddrsInRange 1 1 1 (List.replicate 128 ⟨0, 0, 0, 0⟩) ∧
    tcfTotal 1 1 1 1 (List.replicate 128 ⟨0, 0, 0, 0⟩) = -128 ∧
    ((List.replicate 128 (⟨0, 0, 0, 0⟩ : Event)).countP
        (fun e => decide (0 ≤ e.t ∧ e.t < ((1 : Nat) : Int)))) = 128 := by
  decide

set_option maxHeartbeats 1600000 in
set_option maxRecDepth 16000 in
/-- Witness for the amended claim C1 at a concrete sorted two-event list. -/
theorem tcfTotal_eq_count_witness :
    (([⟨0, 0, 0, 0⟩, ⟨1, 1, 2, 3⟩] : List Event) ≠ [] ∧
      TimeSorted [⟨0, 0, 0, 0⟩, ⟨1, 1, 2, 3⟩] ∧
      NonNegTimes [⟨0, 0, 0, 0⟩, ⟨1, 1, 2, 3⟩] ∧
      AddrsInRange 2 3 4 [⟨0, 0, 0, 0⟩, ⟨1, 1, 2, 3⟩] ∧
      SmallCounts 2 2 3 4 [⟨0, 0, 0, 0⟩, ⟨1, 1, 2, 3⟩]) ∧
    (tcfTotal 2 2 3 4 [⟨0, 0, 0, 0⟩, ⟨1, 1, 2, 3⟩]
        = ((([⟨0, 0, 0, 0⟩, ⟨1, 1, 2, 3⟩] : List Event).countP
            (fun e => decide (0 ≤ e.t ∧ e.t < ((2 : Nat) : Int)))) : Int) ∧
      ∀ j : Nat, ((Finset.range 2).filter (fun i =>
          cumIdx 1 (eventTimes [⟨0, 0, 0, 0⟩, ⟨1, 1, 2, 3⟩]) i ≤ j ∧
            j < cumIdx 1 (eventTimes [⟨0, 0, 0, 0⟩, ⟨1, 1, 2, 3⟩]) (i + 1))).card ≤ 1) :=
  ⟨⟨by decide, by decide, by decide, by decide, by decide⟩,
    tcfTotal_eq_count 2 2 3 4 [⟨0, 0, 0, 0⟩, ⟨1, 1, 2, 3⟩]
      (by decide) (by decide) (by decide) (by decide) (by decide)⟩

/-- Claim C2: with the same `T` and size configuration, on a non-empty,
time-sorted, nonnegative, in-range event list none of whose timestamps equals
`T - 1` — the only bin edge at which the two binners' capture windows diverge
— the `ToEventSum` output equals the `ToCountFrame` output summed over the
time axis (time dimension kept). -/
theorem tesOut_eq_tcfTimeSum (T s0 s1 s2 : Nat) (tmad : List Event)
    (hne : tmad ≠ []) (hs : TimeSorted tmad) (hnn : NonNegTimes tmad)
    (haddr : AddrsInRange s0 s1 s2 tmad)
    (hb : ∀ e ∈ tmad, e.t ≠ (T : Int) - 1) :
    ∀ p x y : Int, tesOut T tmad p x y = tcfTimeSum T tmad p x y := by
  intro p x y
  cases T with
  | zero => rfl
  | succ n =>
    unfold tesOut tcfTimeSum
    rw [Finset.sum_range_succ' (fun i => int8val (tesChunk tmad i p x y)) n,
      Finset.sum_range_succ (fun i => int8val (tcfChunk tmad i p x y)) n]
    have h0 : tesChunk tmad 0 p x y = 0 := tesChunk_zero tmad hs hnn p x y
    have hn : tcfChunk tmad n p x y = 0 := by
      rw [tcfChunk_eq_countP tmad hs hnn n p x y]
      refine List.countP_eq_zero.mpr fun e he hcon => ?_
      have hbe := hb e he
      simp only [Bool.and_eq_true, decide_eq_true_eq] at hcon
      have hcast : ((n + 1 : Nat) : Int) - 1 = (n : Int) := by push_cast; ring
      exact hbe (by rw [hcast, hcon.1])
    have hshift : ∀ i : Nat, tesChunk tmad (i + 1) p x y = tcfChunk tmad i p x y := by
      intro i
      rw [tesChunk_eq_countP tmad hs hnn (i + 1) p x y,
        tcfChunk_eq_countP tmad hs hnn i p x y]
      have hcast : ((i + 1 : Nat) : Int) - 1 = (i : Int) := by push_cast; ring
      simp only [hcast]
    simp only [hshift, h0, hn]

/-- Witness for claim C2 at a concrete sorted two-event list avoiding the
divergent boundary timestamp `T - 1 = 2`. -/
theorem tesOut_eq_tcfTimeSum_witness :
    (([⟨0, 1, 0, 0⟩, ⟨1, 0, 0, 0⟩] : List Event) ≠ [] ∧
      TimeSorted [⟨0, 1, 0, 0⟩, ⟨1, 0, 0, 0⟩] ∧
      NonNegTimes [⟨0, 1, 0, 0⟩, ⟨1, 0, 0, 0⟩] ∧
      AddrsInRange 2 1 1 [⟨0, 1, 0, 0⟩, ⟨1, 0, 0, 0⟩] ∧
      ∀ e ∈ ([⟨0, 1, 0, 0⟩, ⟨1, 0, 0, 0⟩] : List Event), e.t ≠ ((3 : Nat) : Int) - 1) ∧
    (∀ p x y : Int, tesOut 3 [⟨0, 1, 0, 0⟩, ⟨1, 0, 0, 0⟩] p x y
        = tcfTimeSum 3 [⟨0, 1, 0, 0⟩, ⟨1, 0, 0, 0⟩] p x y) :=
  ⟨⟨by decide, by decide, by decide, by decide, by decide⟩,
    tesOut_eq_tcfTimeSum 3 2 1 1 [⟨0, 1, 0, 0⟩, ⟨1, 0, 0, 0⟩]
      (by decide) (by decide) (by decide) (by decide) (by decide)⟩

/-- Claim C3 (amended): on a non-empty, time-sorted, nonnegative event list,
`ToCountFrame` (bin upper search bound `t+1`) counts an event with integer
timestamp `t`, `0 <= t < T`, in bin `t`, while `ToEventSum` (bound `t`)
counts it in bin `t+1`: a boundary event lands one bin LATER in `ToEventSum`
than in `ToCountFrame`, and bin 0 of `ToEventSum` is always empty. -/
theorem binShift_tes_later (tmad : List Event) (hne : tmad ≠ [])
    (hs : TimeSorted tmad) (hnn : NonNegTimes tmad) (i : Nat) (p x y : Int) :
    tcfChunk tmad i p x y
        = tmad.countP (fun e => decide (e.t = (i : Int)) && addrMatch e p x y) ∧
      tesChunk tmad (i + 1) p x y = tcfChunk tmad i p x y ∧
      tesChunk tmad 0 p x y = 0 := by
  refine ⟨tcfChunk_eq_countP tmad hs hnn i p x y, ?_, tesChunk_zero tmad hs hnn p x y⟩
  rw [tesChunk_eq_countP tmad hs hnn (i + 1) p x y,
    tcfChunk_eq_countP tmad hs hnn i p x y]
  have hcast : ((i + 1 : Nat) : Int) - 1 = (i : Int) := by push_cast; ring
  simp only [hcast]

/-- Claim C3 as stated fails on the code: for the sorted singleton list with
boundary timestamp 0, `ToCountFrame` counts the event in bin 0 while
`ToEventSum` counts it in bin 1 — one bin later, not one bin earlier. -/
theorem binShift_counterexample :
    TimeSorted [⟨0, 0, 0, 0⟩] ∧ ([⟨0, 0, 0, 0⟩] : List Event) ≠ [] ∧
    tcfChunk [⟨0, 0, 0, 0⟩] 0 0 0 0 = 1 ∧
    tesChunk [⟨0, 0, 0, 0⟩] 0 0 0 0 = 0 ∧
    tesChunk [⟨0, 0, 0, 0⟩] 1 0 0 0 = 1 := by
  decide

/-- Witness for the amended claim C3 at a concrete sorted two-event list. -/
theorem binShift_tes_later_witness :
    (([⟨0, 0, 0, 0⟩, ⟨2, 1, 1, 1⟩] : List Event) ≠ [] ∧
      TimeSorted [⟨0, 0, 0, 0⟩, ⟨2, 1, 1, 1⟩] ∧
      NonNegTimes [⟨0, 0, 0, 0⟩, ⟨2, 1, 1, 1⟩]) ∧
    (tcfChunk [⟨0, 0, 0, 0⟩, ⟨2, 1, 1, 1⟩] 2 1 1 1
        = (([⟨0, 0, 0, 0⟩, ⟨2, 1, 1, 1⟩] : List Event).countP
            (fun e => decide (e.t = ((2 : Nat) : Int)) && addrMatch e 1 1 1)) ∧
      tesChunk [⟨0, 0, 0, 0⟩, ⟨2, 1, 1, 1⟩] 3 1 1 1
        = tcfChunk [⟨0, 0, 0, 0⟩, ⟨2, 1, 1, 1⟩] 2 1 1 1 ∧
      tesChunk [⟨0, 0, 0, 0⟩, ⟨2, 1, 1, 1⟩] 0 1 1 1 = 0) :=
  ⟨⟨by decide, by decide, by decide⟩,
    binShift_tes_later [⟨0, 0, 0, 0⟩, ⟨2, 1, 1, 1⟩]
      (by decide) (by decide) (by decide) 2 1 1 1⟩

/-- Claim C5: on the empty event list both binning transforms fail with an
indexing error (the reads of `times[0]` and `times[-1]` fail on an empty
array) rather than returning a tensor. -/
theorem binning_empty_input_indexError (T : Nat) :
    ToCountFrame_call T [] = Except.error PyError.indexError ∧
    ToEventSum_call T [] = Except.error PyError.indexError := by
  constructor <;> rfl

/-- Claim C6: `Crop.__call__` references the undefined name `high_crop`
instead of the instance's configured bounds, so every invocation fails with a
name-resolution error and never returns a cropped event list. -/
theorem crop_always_nameError (low high : List Int) (tmad : List Event) :
    Crop_call low high tmad = Except.error PyError.nameError := rfl

/-- Claim C8: `toOneHot` with `num_classes = 3` applied to the labels `[0, 2]`
returns `[[1,0,0],[0,0,1]]`: one 1 per row at the labeled index, 0 elsewhere. -/
theorem toOneHot_labels_example :
    toOneHot_call 3 [[0], [2]] = [[1, 0, 0], [0, 0, 1]] := by rfl

/-- Claim C9 (code bug): `ExpFilterEvents.__init__` hardcodes `groups = 2`;
with `channels = 4` the constructed configuration has a per-channel kernel of
4 output channels but only 2 groups, so the group count does not equal the
channel count and per-channel independence fails. -/
theorem expFilterEvents_groups_hardcoded :
    (ExpFilterEvents_init 5 4).groups = 2 ∧
    (ExpFilterEvents_init 5 4).kernelOutChannels = 4 ∧
    (ExpFilterEvents_init 5 4).groups ≠ (ExpFilterEvents_init 5 4).kernelOutChannels := by
  refine ⟨rfl, rfl, ?_⟩
  decide

/-- Claim C10: with `xs = 0`, `ys = 0` and `th = 0`, `Jitter` is the identity:
the input frame is returned unchanged, whatever the random branch would do. -/
theorem jitter_zero_identity {Frame : Type} (jitterBranch : Frame → Frame)
    (data : Frame) : Jitter_call 0 0 0 jitterBranch data = data := by
  simp [Jitter_call]

/-- Claim C4 as stated fails on the code: `CropCenter` modifies its argument's
coordinate columns in place.  With `center = (2, 2)` and crop shape `(2, 2)`
(translation `(1, 1)`), the caller's array after the call differs from the
input array. -/
theorem cropCenter_mutates_counterexample :
    (CropCenter_call (2, 2) (2, 2) [⟨0, 0, 5, 5⟩]).1 ≠ [⟨0, 0, 5, 5⟩] := by
  decide

/-- Each loop iteration of `CropDims` leaves the caller's buffer untouched:
both `np.delete` calls precede the column write, so the local no longer
aliases the caller's array when the write happens. -/
lemma cropDimsStepSt_caller (st : CropDimsState) (lo hi : Int) (d : Nat) :
    (cropDimsStepSt st lo hi d).caller = st.caller := rfl

lemma cropDimsLoopSt_caller (steps : List (Nat × Int × Int)) :
    ∀ st : CropDimsState, (cropDimsLoopSt st steps).caller = st.caller := by
  induction steps with
  | nil => intro st; rfl
  | cons s rest ih =>
    intro st
    rw [cropDimsLoopSt, ih, cropDimsStepSt_caller]

/-- The aliasing-explicit `CropDims` model computes the same result as the
plain one: its final view is the `CropDims.__call__` return value. -/
lemma cropDimsLoopSt_view (steps : List (Nat × Int × Int)) :
    ∀ st : CropDimsState, (cropDimsLoopSt st steps).view = cropDimsLoop st.view steps := by
  induction steps with
  | nil => intro st; rfl
  | cons s rest ih =>
    intro st
    rw [cropDimsLoopSt, cropDimsLoop, ih]
    rfl

/-- Claim C4 (amended): `CropCenter` modifies its argument in place —
`tmad[:, 2:] -= trans` subtracts the configured translation from the caller's
array's coordinate columns, so the input array is changed by the call
whenever the translation is nonzero and the input list is non-empty; while
`CropDims`, the only other transform whose body writes to an array column,
writes only into the fresh copies returned by `np.delete`, so its caller's
array is always left unchanged. -/
theorem cropCenter_mutates (center attShape : Nat × Nat) (tmad : List Event)
    (hne : tmad ≠ []) (htr : CropCenter_translation center attShape ≠ (0, 0)) :
    (CropCenter_call center attShape tmad).1 ≠ tmad ∧
      ∀ (lowCrop highCrop : List Int) (dims : List Nat) (rows : List (List Int)),
        (CropDims_callSt lowCrop highCrop dims rows).caller = rows := by
  constructor
  · cases tmad with
    | nil => exact absurd rfl hne
    | cons e rest =>
      intro hEq
      have hhead : ({ e with
          x := e.x - ((CropCenter_translation center attShape).1 : Int),
          y := e.y - ((CropCenter_translation center attShape).2 : Int) } : Event) = e := by
        have h1 := congrArg List.head? hEq
        simpa [CropCenter_call] using h1
      have hx := congrArg Event.x hhead
      have hy := congrArg Event.y hhead
      simp only at hx hy
      have ht1 : (CropCenter_translation center attShape).1 = 0 := by
        have : ((CropCenter_translation center attShape).1 : Int) = 0 := by omega
        exact_mod_cast this
      have ht2 : (CropCenter_translation center attShape).2 = 0 := by
        have : ((CropCenter_translation center attShape).2 : Int) = 0 := by omega
        exact_mod_cast this
      exact htr (Prod.ext_iff.mpr ⟨ht1, ht2⟩)
  · intro lowCrop highCrop dims rows
    exact cropDimsLoopSt_caller _ _

/-- Witness for the amended claim C4 at a concrete configuration with
translation `(1, 1)` and a singleton event list. -/
theorem cropCenter_mutates_witness :
    (([⟨0, 0, 5, 5⟩] : List Event) ≠ [] ∧
      CropCenter_translation (2, 2) (2, 2) ≠ (0, 0)) ∧
    ((CropCenter_call (2, 2) (2, 2) [⟨0, 0, 5, 5⟩]).1 ≠ ([⟨0, 0, 5, 5⟩] : List Event) ∧
      ∀ (lowCrop highCrop : List Int) (dims : List Nat) (rows : List (List Int)),
        (CropDims_callSt lowCrop highCrop dims rows).caller = rows) :=
  ⟨⟨by decide, by decide⟩,
    cropCenter_mutates (2, 2) (2, 2) [⟨0, 0, 5, 5⟩] (by decide) (by decide)⟩

lemma length_setCol (r : List Int) (d : Nat) (v : Int) :
    (setCol r d v).length = r.length := by
  simp [setCol]

lemma getCol_setCol_self (r : List Int) (d : Nat) (v : Int) (hd : d < r.length) :
    getCol (setCol r d v) d = v := by
  induction r generalizing d with
  | nil => simp at hd
  | cons a r ih =>
    cases d with
    | zero => rfl
    | succ d => exact ih d (by simpa using hd)

lemma getCol_setCol_ne (r : List Int) (d e : Nat) (v : Int) (h : d ≠ e) :
    getCol (setCol r d v) e = getCol r e := by
  induction r generalizing d e with
  | nil => rfl
  | cons a r ih =>
    cases d with
    | zero =>
      cases e with
      | zero => exact absurd rfl h
      | succ e => rfl
    | succ d =>
      cases e with
      | zero => rfl
      | succ e => exact ih d e fun hde => h (by rw [hde])

/-- Every output row of one `CropDims` iteration comes from an input row whose
column `d` lay in `[lo, hi)`, with that column rebased by `lo`. -/
lemma cropDimsStep_mem {tmad : List (List Int)} {lo hi : Int} {d : Nat}
    {r : List Int} (hr : r ∈ cropDimsStep tmad lo hi d) :
    ∃ r₀ ∈ tmad, getCol r₀ d < hi ∧ lo ≤ getCol r₀ d ∧
      r = setCol r₀ d (getCol r₀ d - lo) := by
  unfold cropDimsStep at hr
  rcases List.mem_map.mp hr with ⟨r₀, hr₀, rfl⟩
  rcases List.mem_filter.mp hr₀ with ⟨hr₁, h2⟩
  rcases List.mem_filter.mp hr₁ with ⟨hmem, h1⟩
  exact ⟨r₀, hmem, by simpa using h1, by simpa using h2, rfl⟩

/-- A row property preserved by every remaining iteration is preserved by the
whole `CropDims` loop. -/
lemma cropDimsLoop_invariant (Q : List Int → Prop) :
    ∀ (steps : List (Nat × Int × Int)) (tmad : List (List Int)),
      (∀ r ∈ tmad, Q r) →
      (∀ s ∈ steps, ∀ (acc : List (List Int)), (∀ r ∈ acc, Q r) →
        ∀ r ∈ cropDimsStep acc s.2.1 s.2.2 s.1, Q r) →
      ∀ r ∈ cropDimsLoop tmad steps, Q r := by
  intro steps
  induction steps with
  | nil =>
    intro tmad hQ _ r hr
    exact hQ r (by simpa [cropDimsLoop] using hr)
  | cons s rest ih =>
    intro tmad hQ hpres r hr
    simp only [cropDimsLoop] at hr
    exact ih (cropDimsStep tmad s.2.1 s.2.2 s.1)
      (hpres s (List.mem_cons_self s rest) tmad hQ)
      (fun s2 hs2 => hpres s2 (List.mem_cons_of_mem s hs2)) r hr

lemma cropDimsLoop_append (tmad : List (List Int)) (s₁ s₂ : List (Nat × Int × Int)) :
    cropDimsLoop tmad (s₁ ++ s₂) = cropDimsLoop (cropDimsLoop tmad s₁) s₂ := by
  induction s₁ generalizing tmad with
  | nil => rfl
  | cons s rest ih =>
    simp only [List.cons_append, cropDimsLoop]
    exact ih _

/-- Claim C7 (amended): for valid `CropDims` bounds (distinct configured
dims with matching bound lengths, on 4-column event rows), every event in the
output satisfies `0 <= value < high_crop[i] - low_crop[i]` in each configured
dimension `dims[i]` after the rebase-to-zero subtraction (equivalently, the
pre-rebase value satisfied `low_crop[i] <= value < high_crop[i]`). -/
theorem cropDims_output_bounds (lowCrop highCrop : List Int) (dims : List Nat)
    (tmad : List (List Int)) (hlen1 : lowCrop.length = dims.length)
    (hlen2 : highCrop.length = dims.length) (hnd : dims.Nodup)
    (hw : ∀ r ∈ tmad, r.length = 4) (hd4 : ∀ d ∈ dims, d < 4)
    (i : Nat) (hi : i < dims.length) :
    ∀ r ∈ CropDims_call lowCrop highCrop dims tmad,
      0 ≤ getCol r (dims.getD i 0) ∧
        getCol r (dims.getD i 0) < highCrop.getD i 0 - lowCrop.getD i 0 := by
  intro r hr
  have hi1 : i < lowCrop.length := by omega
  have hi2 : i < highCrop.length := by omega
  have hizip : i < (lowCrop.zip highCrop).length := by
    rw [List.length_zip]
    omega
  have histeps : i < (dims.zip (lowCrop.zip highCrop)).length := by
    rw [List.length_zip, List.length_zip]
    omega
  have hdi : dims.getD i 0 = dims[i] := List.getD_eq_getElem _ _ hi
  have hmemd : dims.getD i 0 ∈ dims := by
    rw [hdi]
    exact List.getElem_mem hi
  have hd4i : dims.getD i 0 < 4 := hd4 _ hmemd
  have hsplit : dims.zip (lowCrop.zip highCrop)
      = (dims.zip (lowCrop.zip highCrop)).take i
        ++ ((dims.getD i 0, (lowCrop.getD i 0, highCrop.getD i 0))
            :: (dims.zip (lowCrop.zip highCrop)).drop (i + 1)) := by
    conv_lhs => rw [← List.take_append_drop i (dims.zip (lowCrop.zip highCrop))]
    congr 1
    rw [List.drop_eq_getElem_cons histeps]
    congr 1
    rw [List.getElem_zip, List.getElem_zip]
    rw [List.getD_eq_getElem _ _ hi, List.getD_eq_getElem _ _ hi1,
      List.getD_eq_getElem _ _ hi2]
  rw [CropDims_call, hsplit, cropDimsLoop_append] at hr
  simp only [cropDimsLoop] at hr
  have hwM : ∀ r2 ∈ cropDimsLoop tmad ((dims.zip (lowCrop.zip highCrop)).take i),
      r2.length = 4 := by
    refine cropDimsLoop_invariant (fun r2 => r2.length = 4) _ tmad hw ?_
    intro s hsm acc hacc r2 hr2
    rcases cropDimsStep_mem hr2 with ⟨r₀, hr₀, _, _, rfl⟩
    rw [length_setCol]
    exact hacc r₀ hr₀
  have hQ := cropDimsLoop_invariant
    (fun r2 => (0 ≤ getCol r2 (dims.getD i 0) ∧
        getCol r2 (dims.getD i 0) < highCrop.getD i 0 - lowCrop.getD i 0) ∧
      r2.length = 4)
    ((dims.zip (lowCrop.zip highCrop)).drop (i + 1))
    (cropDimsStep (cropDimsLoop tmad ((dims.zip (lowCrop.zip highCrop)).take i))
      (lowCrop.getD i 0) (highCrop.getD i 0) (dims.getD i 0))
  have hmid : ∀ r2 ∈ cropDimsStep
      (cropDimsLoop tmad ((dims.zip (lowCrop.zip highCrop)).take i))
      (lowCrop.getD i 0) (highCrop.getD i 0) (dims.getD i 0),
      (0 ≤ getCol r2 (dims.getD i 0) ∧
        getCol r2 (dims.getD i 0) < highCrop.getD i 0 - lowCrop.getD i 0) ∧
      r2.length = 4 := by
    intro r2 hr2
    rcases cropDimsStep_mem hr2 with ⟨r₀, hr₀, hlt, hge, rfl⟩
    have hlen4 := hwM r₀ hr₀
    refine ⟨?_, by rw [length_setCol]; exact hlen4⟩
    rw [getCol_setCol_self r₀ _ _ (by omega)]
    omega
  have hne2 : ∀ s ∈ (dims.zip (lowCrop.zip highCrop)).drop (i + 1),
      s.1 ≠ dims.getD i 0 := by
    intro s hsm heq
    have hfst : s.1 ∈ dims.drop (i + 1) := by
      have hmap : ((dims.zip (lowCrop.zip highCrop)).drop (i + 1)).map Prod.fst
          = dims.drop (i + 1) := by
        rw [List.map_drop, List.map_fst_zip]
        rw [List.length_zip]
        omega
      rw [← hmap]
      exact List.mem_map_of_mem Prod.fst hsm
    rcases List.mem_iff_getElem.mp hfst with ⟨k, hk, hks⟩
    have hk2 : i + 1 + k < dims.length := by
      rw [List.length_drop] at hk
      omega
    have hgk : dims[i + 1 + k] = dims[i] := by
      rw [← List.getElem_drop dims, hks, heq, hdi]
    have := (hnd.getElem_inj_iff).mp hgk
    omega
  have hpres : ∀ s ∈ (dims.zip (lowCrop.zip highCrop)).drop (i + 1),
      ∀ (acc : List (List Int)),
      (∀ r2 ∈ acc, (0 ≤ getCol r2 (dims.getD i 0) ∧
          getCol r2 (dims.getD i 0) < highCrop.getD i 0 - lowCrop.getD i 0) ∧
        r2.length = 4) →
      ∀ r2 ∈ cropDimsStep acc s.2.1 s.2.2 s.1,
        (0 ≤ getCol r2 (dims.getD i 0) ∧
          getCol r2 (dims.getD i 0) < highCrop.getD i 0 - lowCrop.getD i 0) ∧
        r2.length = 4 := by
    intro s hsm acc hacc r2 hr2
    rcases cropDimsStep_mem hr2 with ⟨r₀, hr₀, _, _, rfl⟩
    rcases hacc r₀ hr₀ with ⟨hb, hl4⟩
    refine ⟨?_, by rw [length_setCol]; exact hl4⟩
    rw [getCol_setCol_ne r₀ _ _ _ (hne2 s hsm)]
    exact hb
  exact (hQ hmid hpres r hr).1

/-- Claim C7 as stated fails on the code: with `low_crop = [2]`,
`high_crop = [4]`, `dims = [2]`, the event row `[0, 0, 3, 0]` survives the
crop and is rebased to `[0, 0, 1, 0]`, whose cropped column value 1 violates
`low_crop[0] <= value`. -/
theorem cropDims_counterexample :
    CropDims_call [2] [4] [2] [[0, 0, 3, 0]] = [[0, 0, 1, 0]] ∧
    ¬ ((2 : Int) ≤ getCol [0, 0, 1, 0] 2 ∧ getCol [0, 0, 1, 0] 2 < 4) := by
  constructor
  · rfl
  · decide

/-- Witness for the amended claim C7 at the concrete cropped row. -/
theorem cropDims_output_bounds_witness :
    (([2] : List Int).length = ([2] : List Nat).length ∧
      ([4] : List Int).length = ([2] : List Nat).length ∧
      ([2] : List Nat).Nodup ∧
      (∀ r ∈ ([[0, 0, 3, 0]] : List (List Int)), r.length = 4) ∧
      (∀ d ∈ ([2] : List Nat), d < 4) ∧ 0 < ([2] : List Nat).length) ∧
    (∀ r ∈ CropDims_call [2] [4] [2] [[0, 0, 3, 0]],
      0 ≤ getCol r (([2] : List Nat).getD 0 0) ∧
        getCol r (([2] : List Nat).getD 0 0)
          < ([4] : List Int).getD 0 0 - ([2] : List Int).getD 0 0) :=
  ⟨⟨by decide, by decide, by decide, by decide, by decide, by decide⟩,
    cropDims_output_bounds [2] [4] [2] [[0, 0, 3, 0]]
      (by decide) (by decide) (by decide) (by decide) (by decide) 0 (by decide)⟩

end Torchneuromorphic
